import Mathlib

/-!
Shallow embedding of `magenta/models/shared/self_similarity_rnn_graph.py`.

Tensors are modelled as nested lists of reals: a rank-3 tensor of shape
`(B, T, D)` is a length-`B` list of length-`T` lists of length-`D` lists.
TensorFlow float32 arithmetic is modelled by real arithmetic.  The learned
variables created inside the TensorFlow layers (the conv2d kernel and bias of
`input_embeddings`) are made explicit parameters, since the embedding has no
variable store.
-/

namespace SelfSimilarityRnn

abbrev Vec := List ℝ

abbrev Mat := List Vec

abbrev Ten3 := List Mat

/-- Shape predicate: `t` is a rectangular rank-3 tensor of shape `(B, R, C)`. -/
def HasDims (t : Ten3) (B R C : Nat) : Prop :=
  t.length = B ∧ ∀ m ∈ t, m.length = R ∧ ∀ r ∈ m, r.length = C

instance (t : Ten3) (B R C : Nat) : Decidable (HasDims t B R C) := by
  unfold HasDims
  infer_instance

/-- Row access: `t[b, i, :]`, defaulting to `[]` out of range. -/
def get2 (t : Ten3) (b i : Nat) : Vec := (t.getD b []).getD i []

/-- Entry access: `t[b, i, j]`, defaulting to `0` out of range. -/
def get3 (t : Ten3) (b i j : Nat) : ℝ := ((t.getD b []).getD i []).getD j 0

/-- Dot product of two vectors, truncating to the shorter one
(a faithful model only when lengths agree, which the shape
hypotheses of the theorems below guarantee). -/
noncomputable def dot (u v : Vec) : ℝ := (List.zipWith (fun a b => a * b) u v).sum

/-- Matrix transpose for a rectangular matrix, by column index
(models `tf.transpose` on the two axes of a single matrix). -/
def tr2 (m : Mat) : Mat :=
  (List.range (m.headD []).length).map (fun j => m.map (fun r => r.getD j 0))

/-- Matrix product `A * B` (models `tf.matmul` on one batch element). -/
noncomputable def matmulM (A B : Mat) : Mat :=
  A.map (fun row => (tr2 B).map (fun col => dot row col))

/-- Matrix product `A * Bᵀ` (models `tf.matmul(a, b, transpose_b=True)`
on one batch element). -/
noncomputable def matmulTB (A B : Mat) : Mat :=
  A.map (fun row => B.map (fun brow => dot row brow))

/-- Transpose of the first two axes of a rank-3 tensor, for rectangular
tensors (models `tf.transpose(x, [1, 0, 2])`). -/
def tr (t : Ten3) : Ten3 :=
  (List.range (t.headD []).length).map (fun i => t.map (fun m => m.getD i []))

/-- `tf.nn.softmax` over the last axis of a single row. -/
noncomputable def softmax (xs : List ℝ) : List ℝ :=
  xs.map (fun x => Real.exp x / (xs.map Real.exp).sum)

/-- Rectified linear unit, the `activation_fn=tf.nn.relu` of `input_embeddings`. -/
noncomputable def relu (x : ℝ) : ℝ := max x 0

/-- Embeds `input_embeddings` (source lines 51-76).  The `[1, input_size]`
conv2d with `VALID` padding is, as the source comment says, a fully-connected
layer applied to each time step independently: filter `e` has weight row
`W[e]` and bias `bias[e]`, followed by ReLU.  `W` and `bias` stand for the
learned variables of shape `[input_size, embedding_size]` and
`[embedding_size]` created by `tf.contrib.layers.conv2d`. -/
noncomputable def input_embeddings (W : Mat) (bias : Vec) (inputs : Ten3) : Ten3 :=
  inputs.map (fun seq => seq.map (fun x =>
    List.zipWith (fun w c => relu (dot w x + c)) W bias))

/-- Python slice bound normalization for `l[:k]` / `l[k:]` on a list of
length `n`: a negative bound counts from the end (clamped at 0), a
nonnegative bound is clamped at `n`.  This is also the semantics of
`tf.strided_slice`, which implements the slices inside
`similarity_weighted_attention`. -/
def pySliceIdx (n : Nat) (k : Int) : Nat :=
  if k < 0 then (k + n).toNat else min k.toNat n

/-- One row of the masked attention: the body of `similarity_to_attention`
applied to one batch row of similarities
(`tf.concat([tf.nn.softmax(sim[:, :step]), tf.zeros_like(sim[:, step:])], -1)`,
source lines 101-104, restricted to a single row of `sim`). -/
noncomputable def attRow (row : Vec) (step : Int) : Vec :=
  softmax (row.take (pySliceIdx row.length step)) ++
    List.replicate (row.drop (pySliceIdx row.length step)).length 0

/-- The `similarity_to_attention` closure of the source (lines 101-104):
maps `attRow` over the batch rows of one input step's similarity matrix. -/
noncomputable def similarity_to_attention (step : Int) (sim : Mat) : Mat :=
  sim.map (fun row => attRow row step)

/-- `tf.range a b` over machine integers, modelled on `Int`. -/
def intRange (a b : Int) : List Int :=
  (List.range (b - a).toNat).map (fun (k : Nat) => a + (k : Int))

/-- The `attention` tensor computed inside `similarity_weighted_attention`
(source lines 93-108): per input step `i`, a masked softmax over the first
`num_target_steps - num_input_steps + 1 + i` target columns, computed by a
step-indexed map over the transposed similarity tensor. -/
noncomputable def attention_weights (self_similarity : Ten3) : Ten3 :=
  let num_input_steps := (self_similarity.headD []).length
  let num_target_steps := ((self_similarity.headD []).headD []).length
  let steps := intRange ((num_target_steps : Int) - (num_input_steps : Int) + 1)
    ((num_target_steps : Int) + 1)
  let transposed_self_similarity := tr self_similarity
  let transposed_attention :=
    List.zipWith similarity_to_attention steps transposed_self_similarity
  tr transposed_attention

/-- Embeds `similarity_weighted_attention` (source lines 77-110): the masked
softmax attention weights multiplied batchwise onto the targets
(`tf.matmul(attention, targets)`). -/
noncomputable def similarity_weighted_attention (targets self_similarity : Ten3) : Ten3 :=
  List.zipWith (fun att tgt => matmulM att tgt) (attention_weights self_similarity) targets

/-- Embeds `self_similarity_attention` (source lines 113-147).  The two
`input_embeddings` calls create two independent sets of conv2d variables,
modelled by `(W1, bias1)` for the current inputs and `(W2, bias2)` for the
targets.  `batch_size`, `input_size` and `embedding_size` mirror the source
signature; `input_size`/`embedding_size` only declare the shapes of the
learned variables (realized here by `W1`, `W2`), and `batch_size` is unused
in the source body. -/
noncomputable def self_similarity_attention (W1 : Mat) (bias1 : Vec) (W2 : Mat) (bias2 : Vec)
    (inputs past_inputs : Ten3) (batch_size input_size embedding_size : Nat) : Ten3 × Ten3 :=
  let embeddings := input_embeddings W1 bias1 inputs
  let targets := List.zipWith (fun p x => p ++ x) past_inputs inputs
  let target_embeddings := input_embeddings W2 bias2 (targets.map List.dropLast)
  let self_similarity := List.zipWith (fun e te => matmulTB e te) embeddings target_embeddings
  let attention_outputs :=
    similarity_weighted_attention (targets.map (List.drop 1)) self_similarity
  (attention_outputs, self_similarity)

/-- Feature-axis concatenation of two rank-3 tensors
(models `tf.concat([a, b], axis=2)`). -/
def concatFeat (a b : Ten3) : Ten3 := List.zipWith (List.zipWith (fun x y => x ++ y)) a b

/-- Per-layer parameters of the recurrent stack (source lines 211-237).
`rnn` abstracts the collaborator `tf.nn.dynamic_rnn` over the layer's
`MultiRNNCell`; `past` is `past_targets[layer]`; the weight pair models the
embedding variables of the layer's attention; `input_size` is
`hparams.rnn_layer_sizes[layer][-1]` and `embedding_size` is
`hparams.embedding_sizes[layer]`. -/
structure LayerParams where
  rnn : Ten3 → Ten3
  W1 : Mat
  bias1 : Vec
  W2 : Mat
  bias2 : Vec
  past : Ten3
  input_size : Nat
  embedding_size : Nat

/-- The per-layer values the graph builder tracks (source lines 226-234). -/
structure LayerResult where
  targets : Ten3
  attention_outputs : Ten3
  self_similarity : Ten3
  output : Ten3

instance : Inhabited LayerResult := ⟨⟨[], [], [], []⟩⟩

/-- One iteration of the layer loop of `build_graph` (source lines 211-237):
run the recurrent cell, run self-similarity attention on its raw outputs and
the layer's past targets, concatenate both along the feature axis, and track
the raw recurrent outputs as this layer's `targets`. -/
noncomputable def run_layer (bs : Nat) (p : LayerParams) (layer_inputs : Ten3) : LayerResult :=
  let rnn_outputs := p.rnn layer_inputs
  let pair := self_similarity_attention p.W1 p.bias1 p.W2 p.bias2 rnn_outputs p.past
    bs p.input_size p.embedding_size
  { targets := rnn_outputs
    attention_outputs := pair.1
    self_similarity := pair.2
    output := concatFeat rnn_outputs pair.1 }

/-- The full layer loop: each layer's `output` becomes the next layer's
input (`layer_inputs = outputs`, source line 237). -/
noncomputable def run_stack (bs : Nat) : List LayerParams → Ten3 → List LayerResult
  | [], _ => []
  | p :: ps, x =>
    let r := run_layer bs p x
    r :: run_stack bs ps r.output

/-- Embeds the mode validation at the top of `build_graph`
(source lines 168-170): any mode outside the three valid ones raises a
`ValueError` whose message ends with the offending value, before any graph
element is constructed; modelled as the error branch of an `Except`. -/
def build_graph_mode_guard (mode : String) : Except String Unit :=
  if mode ∉ (["train", "eval", "generate"] : List String) then
    Except.error
      ("The mode parameter must be 'train', 'eval', or 'generate'. The mode parameter was: " ++ mode)
  else
    Except.ok ()

/-- `tf.reduce_mean` over a flat tensor. -/
noncomputable def reduce_mean (l : List ℝ) : ℝ := l.sum / l.length

/-- `loss = tf.reduce_mean(softmax_cross_entropy)` (source line 268). -/
noncomputable def train_loss (xent : List ℝ) : ℝ := reduce_mean xent

/-- `perplexity = tf.exp(loss)` (source line 269). -/
noncomputable def train_perplexity (xent : List ℝ) : ℝ := Real.exp (train_loss xent)

/-- `loss_per_step = tf.reduce_sum(softmax_cross_entropy) / num_steps`
(source line 278), where `num_steps` is the domain-specific step count
produced by the external `batch_labels_to_num_steps` collaborator. -/
noncomputable def train_loss_per_step (xent : List ℝ) (num_steps : ℝ) : ℝ :=
  xent.sum / num_steps

/-- `perplexity_per_step = tf.exp(loss_per_step)` (source line 279). -/
noncomputable def train_perplexity_per_step (xent : List ℝ) (num_steps : ℝ) : ℝ :=
  Real.exp (train_loss_per_step xent num_steps)

/-- The division of the generate-mode tail (source lines 334-335):
`tf.div(logits_flat, tf.fill([num_classes], temperature))` followed by
`tf.nn.softmax`, per flattened step row. -/
noncomputable def generate_softmax_flat (logits_flat : Mat) (num_classes : Nat)
    (temperature : ℝ) : Mat :=
  logits_flat.map (fun row =>
    softmax (List.zipWith (fun l t => l / t) row (List.replicate num_classes temperature)))

/-- `tf.reshape(softmax_flat, [batch_size, -1, num_classes])` (source line
336) on a row-major flat matrix whose rows are the per-step class rows:
splits the rows into `batch_size` consecutive groups of `flat.length /
batch_size` steps. -/
def reshape_batch (batch_size : Nat) (flat : Mat) : Ten3 :=
  (List.range batch_size).map (fun b =>
    (flat.drop (b * (flat.length / batch_size))).take (flat.length / batch_size))

/-- The generate-mode output distribution (source lines 333-336). -/
noncomputable def generate_softmax (batch_size num_classes : Nat) (temperature : ℝ)
    (logits_flat : Mat) : Ten3 :=
  reshape_batch batch_size (generate_softmax_flat logits_flat num_classes temperature)

/-- Modelled from the spec: the independent reference softmax of §8 item 7,
`softmax(x)_j = exp(x_j) / Σ_k exp(x_k)`, used only to compare the
generate-mode output against. -/
noncomputable def reference_softmax (xs : List ℝ) : List ℝ :=
  xs.map (fun x => Real.exp x / (xs.map Real.exp).sum)

/-- Fixed numeric weights for the end-to-end example of the spec (§8 item
6): a 2-filter embedding over 4-dimensional recurrent outputs. -/
def exW : Mat := [[1, 0, 0, 0], [0, 1, 0, 0]]

/-- Zero bias for the example embedding. -/
def exBias : Vec := [0, 0]

/-- Fixed numeric inputs for the end-to-end example: batch 2, T = 3 steps of
4-dimensional recurrent outputs. -/
def exInputs : Ten3 :=
  [[[1, 0, 0, 0], [0, 1, 0, 0], [1, 1, 0, 0]],
   [[2, 0, 0, 0], [0, 2, 0, 0], [2, 2, 0, 0]]]

/-- Empty past targets (`Tp = 0`) for the end-to-end example. -/
def exPast : Ten3 := [[], []]

/-- The end-to-end example's attention call: batch 2, input size 4
(the rnn unit count), embedding size 2, no past. -/
noncomputable def exSSA : Ten3 × Ten3 :=
  self_similarity_attention exW exBias exW exBias exInputs exPast 2 4 2

/-! ### List indexing toolkit -/

lemma headD_eq_getD_zero {α : Type _} (l : List α) (d : α) : l.headD d = l.getD 0 d := by
  cases l <;> rfl

lemma getD_map_of_lt {α β : Type _} (f : α → β) (l : List α) (i : Nat) (h : i < l.length)
    (d : α) (e : β) : (l.map f).getD i e = f (l.getD i d) := by
  rw [List.getD_eq_getElem (l.map f) e (by simpa using h), List.getD_eq_getElem l d h]
  simp

lemma getD_zipWith_of_lt {α β γ : Type _} (f : α → β → γ) (as : List α) (bs : List β)
    (i : Nat) (ha : i < as.length) (hb : i < bs.length) (da : α) (db : β) (dc : γ) :
    (List.zipWith f as bs).getD i dc = f (as.getD i da) (bs.getD i db) := by
  rw [List.getD_eq_getElem (List.zipWith f as bs) dc (by simp [List.length_zipWith]; omega),
    List.getD_eq_getElem as da ha, List.getD_eq_getElem bs db hb]
  simp

lemma getD_range_map {β : Type _} (g : Nat → β) (n i : Nat) (h : i < n) (d : β) :
    ((List.range n).map g).getD i d = g i := by
  rw [getD_map_of_lt g (List.range n) i (by simpa using h) 0 d,
    List.getD_eq_getElem (List.range n) 0 (by simpa using h)]
  simp

lemma getD_take_of_lt {α : Type _} (l : List α) (w i : Nat) (h : i < w) (hw : w ≤ l.length)
    (d : α) : (l.take w).getD i d = l.getD i d := by
  rw [List.getD_eq_getElem (l.take w) d (by simp; omega),
    List.getD_eq_getElem l d (by omega)]
  simp

lemma getD_replicate {α : Type _} (a d : α) (n i : Nat) : (List.replicate n a).getD i d =
    if i < n then a else d := by
  by_cases h : i < n
  · rw [if_pos h, List.getD_eq_getElem (List.replicate n a) d (by simpa using h)]
    simp
  · rw [if_neg h, List.getD_eq_default]
    simpa using Nat.le_of_not_lt h

lemma tr_length (t : Ten3) : (tr t).length = (t.headD []).length := by
  simp [tr]

lemma tr_getD (t : Ten3) (i : Nat) (h : i < (t.headD []).length) :
    (tr t).getD i [] = t.map (fun m => m.getD i []) := by
  simp only [tr]
  exact getD_range_map _ _ _ h _

lemma intRange_length (a b : Int) : (intRange a b).length = (b - a).toNat := by
  simp [intRange]

lemma intRange_getD (a b : Int) (i : Nat) (h : i < (b - a).toNat) :
    (intRange a b).getD i 0 = a + i := by
  simp only [intRange]
  exact getD_range_map (fun k => a + (k : Int)) _ _ h _

lemma sum_range_getD (l : List ℝ) : ∑ j ∈ Finset.range l.length, l.getD j 0 = l.sum := by
  induction l with
  | nil => simp
  | cons a t ih =>
    rw [List.length_cons, Finset.sum_range_succ']
    simp only [List.getD_cons_succ, List.getD_cons_zero, List.sum_cons, ih]
    ring

lemma sum_map_exp_pos (l : List ℝ) (h : l ≠ []) : 0 < (l.map Real.exp).sum := by
  cases l with
  | nil => exact absurd rfl h
  | cons a t =>
    simp only [List.map_cons, List.sum_cons]
    have ht : 0 ≤ (t.map Real.exp).sum := by
      apply List.sum_nonneg
      intro x hx
      obtain ⟨y, _, rfl⟩ := List.mem_map.mp hx
      exact le_of_lt (Real.exp_pos y)
    have := Real.exp_pos a
    linarith

lemma softmax_length (xs : List ℝ) : (softmax xs).length = xs.length := by
  simp [softmax]

lemma softmax_getD (xs : List ℝ) (i : Nat) (h : i < xs.length) :
    (softmax xs).getD i 0 = Real.exp (xs.getD i 0) / (xs.map Real.exp).sum := by
  simp only [softmax]
  rw [getD_map_of_lt _ xs i h 0 0]

lemma sum_map_div (l : List ℝ) (c : ℝ) :
    (l.map (fun x => x / c)).sum = l.sum / c := by
  induction l with
  | nil => simp
  | cons a t ih => simp only [List.map_cons, List.sum_cons, ih]; ring

lemma softmax_sum (xs : List ℝ) (h : xs ≠ []) : (softmax xs).sum = 1 := by
  have hpos := sum_map_exp_pos xs h
  have : softmax xs = (xs.map Real.exp).map (fun x => x / (xs.map Real.exp).sum) := by
    simp [softmax, List.map_map, Function.comp]
  rw [this, sum_map_div, div_self (ne_of_gt hpos)]

lemma softmax_singleton (x : ℝ) : softmax [x] = [1] := by
  simp [softmax, div_self (Real.exp_ne_zero x)]

lemma pySliceIdx_le (n : Nat) (k : Int) : pySliceIdx n k ≤ n := by
  simp only [pySliceIdx]
  split <;> omega

lemma pySliceIdx_of_nonneg_le (n : Nat) (k : Int) (h0 : 0 ≤ k) (hn : k ≤ n) :
    pySliceIdx n k = k.toNat := by
  simp only [pySliceIdx]
  split <;> omega

lemma attRow_length (row : Vec) (step : Int) : (attRow row step).length = row.length := by
  have := pySliceIdx_le row.length step
  simp only [attRow, List.length_append, softmax_length, List.length_take,
    List.length_replicate, List.length_drop]
  omega

lemma attRow_getD_of_lt (row : Vec) (step : Int) (j : Nat)
    (hj : j < pySliceIdx row.length step) :
    (attRow row step).getD j 0 =
      Real.exp (row.getD j 0) /
        ((row.take (pySliceIdx row.length step)).map Real.exp).sum := by
  have hw := pySliceIdx_le row.length step
  have hlen : j < (softmax (row.take (pySliceIdx row.length step))).length := by
    simp only [softmax_length, List.length_take]
    omega
  simp only [attRow]
  rw [List.getD_append _ _ _ _ hlen,
    softmax_getD _ j (by simp [List.length_take]; omega),
    getD_take_of_lt row _ j hj hw]

lemma attRow_getD_of_ge (row : Vec) (step : Int) (j : Nat)
    (hj : pySliceIdx row.length step ≤ j) :
    (attRow row step).getD j 0 = 0 := by
  have hw := pySliceIdx_le row.length step
  by_cases hn : j < row.length
  · have hlen : (softmax (row.take (pySliceIdx row.length step))).length ≤ j := by
      simp only [softmax_length, List.length_take]
      omega
    simp only [attRow]
    rw [List.getD_append_right _ _ _ _ hlen, getD_replicate]
    split <;> rfl
  · rw [List.getD_eq_default]
    rw [attRow_length]
    omega

lemma attRow_window_sum (row : Vec) (step : Int) (hw : 1 ≤ pySliceIdx row.length step) :
    ∑ j ∈ Finset.range (pySliceIdx row.length step), (attRow row step).getD j 0 = 1 := by
  have hle := pySliceIdx_le row.length step
  set w := pySliceIdx row.length step with hwdef
  set s := row.take w with hsdef
  have hslen : s.length = w := by rw [hsdef, List.length_take]; omega
  have hlen : (softmax s).length = w := by rw [softmax_length, hslen]
  have hsum : ∑ j ∈ Finset.range w, (attRow row step).getD j 0 =
      ∑ j ∈ Finset.range w, (softmax s).getD j 0 := by
    apply Finset.sum_congr rfl
    intro j hj
    rw [Finset.mem_range] at hj
    simp only [attRow, ← hwdef, ← hsdef]
    rw [List.getD_append _ _ _ _ (by rw [hlen]; exact hj)]
  rw [hsum, ← hlen, sum_range_getD]
  apply softmax_sum
  intro hnil
  have hc := congrArg List.length hnil
  rw [hslen] at hc
  simp at hc
  omega

lemma attRow_of_window_zero (row : Vec) (step : Int)
    (hw : pySliceIdx row.length step = 0) :
    attRow row step = List.replicate row.length 0 := by
  simp [attRow, hw, softmax]

/-! ### Shape accessors for `HasDims` -/

lemma hasDims_getD_length {t : Ten3} {B R C : Nat} (h : HasDims t B R C) {b : Nat}
    (hb : b < B) : (t.getD b []).length = R := by
  obtain ⟨h1, h2⟩ := h
  rw [List.getD_eq_getElem t [] (by omega)]
  exact (h2 _ (List.getElem_mem _)).1

lemma hasDims_row_length {t : Ten3} {B R C : Nat} (h : HasDims t B R C) {b i : Nat}
    (hb : b < B) (hi : i < R) : ((t.getD b []).getD i []).length = C := by
  have hm : (t.getD b []).length = R := hasDims_getD_length h hb
  obtain ⟨h1, h2⟩ := h
  have hmem : t.getD b [] ∈ t := by
    rw [List.getD_eq_getElem t [] (by omega)]
    exact List.getElem_mem _
  rw [List.getD_eq_getElem (t.getD b []) [] (by omega)]
  exact (h2 _ hmem).2 _ (List.getElem_mem _)

lemma hasDims_headD_length {t : Ten3} {B R C : Nat} (h : HasDims t B R C) (hB : 1 ≤ B) :
    (t.headD []).length = R := by
  rw [headD_eq_getD_zero]
  exact hasDims_getD_length h (by omega)

lemma hasDims_headD_headD_length {t : Ten3} {B R C : Nat} (h : HasDims t B R C)
    (hB : 1 ≤ B) (hR : 1 ≤ R) : ((t.headD []).headD []).length = C := by
  rw [headD_eq_getD_zero, headD_eq_getD_zero]
  exact hasDims_row_length h (by omega) (by omega)

lemma hasDims_of_getD {t : Ten3} {B R C : Nat} (hlen : t.length = B)
    (h : ∀ b, b < B → (t.getD b []).length = R ∧
      ∀ i, i < R → ((t.getD b []).getD i []).length = C) :
    HasDims t B R C := by
  refine ⟨hlen, ?_⟩
  intro m hm
  obtain ⟨b, hb, hbm⟩ := List.mem_iff_getElem.mp hm
  have hmb : m = t.getD b [] := by
    rw [List.getD_eq_getElem t [] hb, hbm]
  obtain ⟨hR, hC⟩ := h b (by omega)
  subst hmb
  refine ⟨hR, ?_⟩
  intro r hr
  obtain ⟨i, hi, hir⟩ := List.mem_iff_getElem.mp hr
  have hri : r = (t.getD b []).getD i [] := by
    rw [List.getD_eq_getElem (t.getD b []) [] hi, hir]
  subst hri
  exact hC i (by omega)

/-! ### Structure of the attention weights -/

lemma attention_weights_eq (s : Ten3) (Ti Tt : Nat)
    (h1 : (s.headD []).length = Ti) (h2 : ((s.headD []).headD []).length = Tt) :
    attention_weights s =
      tr (List.zipWith similarity_to_attention
        (intRange ((Tt : Int) - (Ti : Int) + 1) ((Tt : Int) + 1)) (tr s)) := by
  simp only [attention_weights, h1, h2]

/-- Each row `(b, i)` of the `attention` tensor of
`similarity_weighted_attention` is the masked softmax row `attRow` of the
corresponding similarity row, with the window bound
`num_target_steps - num_input_steps + 1 + i` of the source's `steps` range. -/
lemma attention_weights_getD (s : Ten3) (B Ti Tt : Nat) (hs : HasDims s B Ti Tt)
    (b i : Nat) (hb : b < B) (hi : i < Ti) :
    get2 (attention_weights s) b i =
      attRow (get2 s b i) ((Tt : Int) - (Ti : Int) + 1 + (i : Int)) := by
  have hB : 1 ≤ B := by omega
  have hTi : 1 ≤ Ti := by omega
  have hh1 : (s.headD []).length = Ti := hasDims_headD_length hs hB
  have hh2 : ((s.headD []).headD []).length = Tt := hasDims_headD_headD_length hs hB hTi
  have hslen : s.length = B := hs.1
  simp only [get2]
  rw [attention_weights_eq s Ti Tt hh1 hh2]
  set steps := intRange ((Tt : Int) - (Ti : Int) + 1) ((Tt : Int) + 1) with hstepsdef
  set A := List.zipWith similarity_to_attention steps (tr s) with hAdef
  have hsteps_len : steps.length = Ti := by
    rw [hstepsdef, intRange_length]
    omega
  have htrs_len : (tr s).length = Ti := by rw [tr_length, hh1]
  have hA_len : A.length = Ti := by
    rw [hAdef, List.length_zipWith, hsteps_len, htrs_len, Nat.min_self]
  have hA_getD : ∀ k, k < Ti → A.getD k [] =
      (s.map (fun m => m.getD k [])).map
        (fun row => attRow row ((Tt : Int) - (Ti : Int) + 1 + (k : Int))) := by
    intro k hk
    rw [hAdef, getD_zipWith_of_lt similarity_to_attention steps (tr s) k
      (by rw [hsteps_len]; exact hk) (by rw [htrs_len]; exact hk) 0 []]
    rw [tr_getD s k (by rw [hh1]; exact hk)]
    rw [hstepsdef, intRange_getD _ _ k (by omega)]
    rfl
  have hA_head_len : (A.headD []).length = B := by
    rw [headD_eq_getD_zero, hA_getD 0 (by omega)]
    simp [hslen]
  rw [tr_getD A b (by rw [hA_head_len]; exact hb)]
  rw [getD_map_of_lt (fun m => m.getD b []) A i (by rw [hA_len]; exact hi) [] []]
  rw [hA_getD i hi]
  rw [getD_map_of_lt _ (s.map (fun m => m.getD i [])) b
    (by rw [List.length_map, hslen]; exact hb) [] []]
  rw [getD_map_of_lt _ s b (by rw [hslen]; exact hb) [] []]

/-- The `attention` tensor has the shape `(B, Ti, Tt)` of the similarity
tensor (also when `Ti > Tt`). -/
lemma attention_weights_dims (s : Ten3) (B Ti Tt : Nat) (hs : HasDims s B Ti Tt)
    (hTi : 1 ≤ Ti) : HasDims (attention_weights s) B Ti Tt := by
  rcases Nat.eq_zero_or_pos B with hB0 | hBpos
  · have hnil : s = [] := by
      rw [← List.length_eq_zero, hs.1, hB0]
    subst hnil
    refine ⟨?_, ?_⟩
    · simp [attention_weights, tr, intRange, hB0]
    · intro m hm
      simp [attention_weights, tr, intRange] at hm
  · have hB : 1 ≤ B := hBpos
    have hh1 : (s.headD []).length = Ti := hasDims_headD_length hs hB
    have hh2 : ((s.headD []).headD []).length = Tt := hasDims_headD_headD_length hs hB hTi
    have hslen : s.length = B := hs.1
    have hrowlen : ∀ b i, b < B → i < Ti →
        (get2 (attention_weights s) b i).length = Tt := by
      intro b i hb hi
      rw [attention_weights_getD s B Ti Tt hs b i hb hi, attRow_length]
      exact hasDims_row_length hs hb hi
    have hkey : ∀ b, b < B → ((attention_weights s).getD b []).length = Ti := by
      intro b hb
      rw [attention_weights_eq s Ti Tt hh1 hh2]
      set steps := intRange ((Tt : Int) - (Ti : Int) + 1) ((Tt : Int) + 1) with hstepsdef
      set A := List.zipWith similarity_to_attention steps (tr s) with hAdef
      have hsteps_len : steps.length = Ti := by
        rw [hstepsdef, intRange_length]
        omega
      have htrs_len : (tr s).length = Ti := by rw [tr_length, hh1]
      have hA_len : A.length = Ti := by
        rw [hAdef, List.length_zipWith, hsteps_len, htrs_len, Nat.min_self]
      have hA0 : A.getD 0 [] =
          similarity_to_attention (steps.getD 0 0) ((tr s).getD 0 []) := by
        rw [hAdef, getD_zipWith_of_lt similarity_to_attention steps (tr s) 0
          (by rw [hsteps_len]; omega) (by rw [htrs_len]; omega) 0 []]
      have hA_head_len : (A.headD []).length = B := by
        rw [headD_eq_getD_zero, hA0, tr_getD s 0 (by rw [hh1]; omega)]
        simp [similarity_to_attention, hslen]
      rw [tr_getD A b (by rw [hA_head_len]; exact hb), List.length_map, hA_len]
    have hAWlen : (attention_weights s).length = B := by
      rw [attention_weights_eq s Ti Tt hh1 hh2]
      set steps := intRange ((Tt : Int) - (Ti : Int) + 1) ((Tt : Int) + 1) with hstepsdef
      set A := List.zipWith similarity_to_attention steps (tr s) with hAdef
      have hsteps_len : steps.length = Ti := by
        rw [hstepsdef, intRange_length]
        omega
      have htrs_len : (tr s).length = Ti := by rw [tr_length, hh1]
      have hA_len : A.length = Ti := by
        rw [hAdef, List.length_zipWith, hsteps_len, htrs_len, Nat.min_self]
      have hA0 : A.getD 0 [] =
          similarity_to_attention (steps.getD 0 0) ((tr s).getD 0 []) := by
        rw [hAdef, getD_zipWith_of_lt similarity_to_attention steps (tr s) 0
          (by rw [hsteps_len]; omega) (by rw [htrs_len]; omega) 0 []]
      have hA_head_len : (A.headD []).length = B := by
        rw [headD_eq_getD_zero, hA0, tr_getD s 0 (by rw [hh1]; omega)]
        simp [similarity_to_attention, hslen]
      rw [tr_length, hA_head_len]
    exact hasDims_of_getD hAWlen (fun b hb =>
      ⟨hkey b hb, fun i hi => hrowlen b i hb hi⟩)

lemma tr2_length (m : Mat) : (tr2 m).length = (m.headD []).length := by
  simp [tr2]

lemma tr2_getD (m : Mat) (j : Nat) (h : j < (m.headD []).length) :
    (tr2 m).getD j [] = m.map (fun r => r.getD j 0) := by
  simp only [tr2]
  exact getD_range_map _ _ _ h _

lemma dot_eq_sum (u v : Vec) (n : Nat) (hu : u.length = n) (hv : v.length = n) :
    dot u v = ∑ j ∈ Finset.range n, u.getD j 0 * v.getD j 0 := by
  have hz : (List.zipWith (fun a b => a * b) u v).length = n := by
    rw [List.length_zipWith, hu, hv, Nat.min_self]
  rw [dot, ← sum_range_getD, hz]
  apply Finset.sum_congr rfl
  intro j hj
  rw [Finset.mem_range] at hj
  rw [getD_zipWith_of_lt _ u v j (by omega) (by omega) 0 0]

/-- Each entry of the attention output is the attention-weighted sum of the
corresponding target column (`tf.matmul(attention, targets)`). -/
lemma swa_getD (targets s : Ten3) (B Ti Tt D : Nat)
    (hs : HasDims s B Ti Tt) (ht : HasDims targets B Tt D)
    (b i d : Nat) (hb : b < B) (hi : i < Ti) (hd : d < D) (hTt : 1 ≤ Tt) :
    get3 (similarity_weighted_attention targets s) b i d =
      ∑ j ∈ Finset.range Tt, get3 (attention_weights s) b i j * get3 targets b j d := by
  have hTi : 1 ≤ Ti := by omega
  have hAW : HasDims (attention_weights s) B Ti Tt :=
    attention_weights_dims s B Ti Tt hs hTi
  simp only [get3, similarity_weighted_attention]
  rw [getD_zipWith_of_lt _ (attention_weights s) targets b
    (by rw [hAW.1]; exact hb) (by rw [ht.1]; exact hb) [] []]
  simp only [matmulM]
  rw [getD_map_of_lt _ ((attention_weights s).getD b []) i
    (by rw [hasDims_getD_length hAW hb]; exact hi) [] []]
  have hTbhead : ((targets.getD b []).headD []).length = D := by
    rw [headD_eq_getD_zero]
    exact hasDims_row_length ht hb (by omega)
  rw [getD_map_of_lt _ (tr2 (targets.getD b [])) d
    (by rw [tr2_length, hTbhead]; exact hd) [] 0]
  rw [tr2_getD _ d (by rw [hTbhead]; exact hd)]
  have hrow_len : (((attention_weights s).getD b []).getD i []).length = Tt :=
    hasDims_row_length hAW hb hi
  have hcol_len : ((targets.getD b []).map (fun r => r.getD d 0)).length = Tt := by
    rw [List.length_map, hasDims_getD_length ht hb]
  rw [dot_eq_sum _ _ Tt hrow_len hcol_len]
  apply Finset.sum_congr rfl
  intro j hj
  rw [Finset.mem_range] at hj
  congr 1
  rw [getD_map_of_lt _ (targets.getD b []) j
    (by rw [hasDims_getD_length ht hb]; exact hj) [] 0]

/-- Shape of the attention output: `(B, Ti, D)` for a `(B, Ti, Tt)`
similarity and `(B, Tt, D)` targets, whether or not `Ti ≤ Tt`. -/
lemma swa_dims (targets s : Ten3) (B Ti Tt D : Nat)
    (hs : HasDims s B Ti Tt) (ht : HasDims targets B Tt D)
    (hTi : 1 ≤ Ti) (hTt : 1 ≤ Tt) :
    HasDims (similarity_weighted_attention targets s) B Ti D := by
  have hAW := attention_weights_dims s B Ti Tt hs hTi
  apply hasDims_of_getD
  · rw [similarity_weighted_attention, List.length_zipWith, hAW.1, ht.1, Nat.min_self]
  · intro b hb
    have hbatch : (similarity_weighted_attention targets s).getD b [] =
        matmulM ((attention_weights s).getD b []) (targets.getD b []) := by
      rw [similarity_weighted_attention, getD_zipWith_of_lt _ (attention_weights s) targets b
        (by rw [hAW.1]; exact hb) (by rw [ht.1]; exact hb) [] []]
    have hTbhead : ((targets.getD b []).headD []).length = D := by
      rw [headD_eq_getD_zero]
      exact hasDims_row_length ht hb (by omega)
    constructor
    · rw [hbatch, matmulM, List.length_map, hasDims_getD_length hAW hb]
    · intro i hi
      rw [hbatch]
      simp only [matmulM]
      rw [getD_map_of_lt _ ((attention_weights s).getD b []) i
        (by rw [hasDims_getD_length hAW hb]; exact hi) [] []]
      rw [List.length_map, tr2_length, hTbhead]

lemma sum_map_take_exp (row : Vec) (w : Nat) (hw : w ≤ row.length) :
    ((row.take w).map Real.exp).sum = ∑ k ∈ Finset.range w, Real.exp (row.getD k 0) := by
  rw [← sum_range_getD ((row.take w).map Real.exp), List.length_map, List.length_take,
    Nat.min_eq_left hw]
  apply Finset.sum_congr rfl
  intro k hk
  rw [Finset.mem_range] at hk
  rw [getD_map_of_lt Real.exp (row.take w) k
    (by rw [List.length_take]; omega) 0 0, getD_take_of_lt row w k hk hw 0]

/-- Claim C1: for a `(B, Ti, Tt)` similarity tensor with `Ti ≤ Tt` (the
documented caller contract) and `(B, Tt, D)` targets, every attention row
`i` gives weight exactly 0 to target columns at or beyond `offset + i + 1`
(with `offset = Tt - Ti`), computes the softmax strictly over the window
`[0, offset + i + 1)` — each in-window weight is the softmax quotient over
the window, and the window weights sum to 1 — and the attention output entry
`(b, i, d)` is `Σ_j attention[b,i,j] * targets[b,j,d]`. -/
theorem C1_similarity_weighted_attention (targets s : Ten3) (B Ti Tt D : Nat)
    (hs : HasDims s B Ti Tt) (ht : HasDims targets B Tt D) (hTiTt : Ti ≤ Tt) :
    (∀ b i j, b < B → i < Ti → Tt - Ti + i + 1 ≤ j →
      get3 (attention_weights s) b i j = 0) ∧
    (∀ b i, b < B → i < Ti →
      (∀ j, j < Tt - Ti + i + 1 →
        get3 (attention_weights s) b i j =
          Real.exp (get3 s b i j) /
            ∑ k ∈ Finset.range (Tt - Ti + i + 1), Real.exp (get3 s b i k)) ∧
      ∑ j ∈ Finset.range (Tt - Ti + i + 1), get3 (attention_weights s) b i j = 1) ∧
    (∀ b i d, b < B → i < Ti → d < D →
      get3 (similarity_weighted_attention targets s) b i d =
        ∑ j ∈ Finset.range Tt, get3 (attention_weights s) b i j * get3 targets b j d) := by
  have hrow : ∀ b i, b < B → i < Ti → (get2 s b i).length = Tt := by
    intro b i hb hi
    exact hasDims_row_length hs hb hi
  have hslice : ∀ b i, b < B → i < Ti →
      pySliceIdx (get2 s b i).length ((Tt : Int) - (Ti : Int) + 1 + (i : Int)) =
        Tt - Ti + i + 1 := by
    intro b i hb hi
    rw [hrow b i hb hi, pySliceIdx_of_nonneg_le _ _ (by omega) (by omega)]
    omega
  refine ⟨?_, ?_, ?_⟩
  · intro b i j hb hi hj
    show (get2 (attention_weights s) b i).getD j 0 = 0
    rw [attention_weights_getD s B Ti Tt hs b i hb hi]
    apply attRow_getD_of_ge
    rw [hslice b i hb hi]
    exact hj
  · intro b i hb hi
    constructor
    · intro j hj
      show (get2 (attention_weights s) b i).getD j 0 = _
      rw [attention_weights_getD s B Ti Tt hs b i hb hi]
      rw [attRow_getD_of_lt _ _ j (by rw [hslice b i hb hi]; exact hj)]
      rw [hslice b i hb hi,
        sum_map_take_exp _ _ (by rw [hrow b i hb hi]; omega)]
      rfl
    · have hsum : ∑ j ∈ Finset.range (Tt - Ti + i + 1),
          get3 (attention_weights s) b i j =
          ∑ j ∈ Finset.range
            (pySliceIdx (get2 s b i).length ((Tt : Int) - (Ti : Int) + 1 + (i : Int))),
            (attRow (get2 s b i) ((Tt : Int) - (Ti : Int) + 1 + (i : Int))).getD j 0 := by
        rw [hslice b i hb hi]
        apply Finset.sum_congr rfl
        intro j hj
        show (get2 (attention_weights s) b i).getD j 0 = _
        rw [attention_weights_getD s B Ti Tt hs b i hb hi]
      rw [hsum]
      apply attRow_window_sum
      rw [hslice b i hb hi]
      omega
  · intro b i d hb hi hd
    exact swa_getD targets s B Ti Tt D hs ht b i d hb hi hd (by omega)

lemma softmax_nil : softmax [] = [] := rfl

/-- Witness for C1 at `B = Ti = Tt = D = 1`, similarity `[[[0]]]` and
targets `[[[2]]]`. -/
theorem C1_similarity_weighted_attention_witness :
    HasDims [[[(0 : ℝ)]]] 1 1 1 ∧ HasDims [[[(2 : ℝ)]]] 1 1 1 ∧ (1 : Nat) ≤ 1 ∧
    ((∀ b i j, b < 1 → i < 1 → 1 - 1 + i + 1 ≤ j →
      get3 (attention_weights [[[(0 : ℝ)]]]) b i j = 0) ∧
    (∀ b i, b < 1 → i < 1 →
      (∀ j, j < 1 - 1 + i + 1 →
        get3 (attention_weights [[[(0 : ℝ)]]]) b i j =
          Real.exp (get3 [[[(0 : ℝ)]]] b i j) /
            ∑ k ∈ Finset.range (1 - 1 + i + 1), Real.exp (get3 [[[(0 : ℝ)]]] b i k)) ∧
      ∑ j ∈ Finset.range (1 - 1 + i + 1), get3 (attention_weights [[[(0 : ℝ)]]]) b i j = 1) ∧
    (∀ b i d, b < 1 → i < 1 → d < 1 →
      get3 (similarity_weighted_attention [[[(2 : ℝ)]]] [[[(0 : ℝ)]]]) b i d =
        ∑ j ∈ Finset.range 1,
          get3 (attention_weights [[[(0 : ℝ)]]]) b i j * get3 [[[(2 : ℝ)]]] b j d)) :=
  ⟨by decide, by decide, by decide,
    C1_similarity_weighted_attention [[[(2 : ℝ)]]] [[[(0 : ℝ)]]] 1 1 1 1
      (by decide) (by decide) (by decide)⟩

/-- Counterexample to C9 as stated: with `Ti = 4 > Tt = 2` the first row's
window bound is `offset + 0 + 1 = -1 ≤ 0`, yet the row is not all-zero —
the negative bound wraps around under Python slice semantics, and the first
weight is 1. -/
theorem C9_counterexample :
    ((2 : Int) - 4 + 0 + 1 ≤ 0) ∧
    get3 (attention_weights [[[(0 : ℝ), 0], [0, 0], [0, 0], [0, 0]]]) 0 0 0 = 1 := by
  constructor
  · decide
  · have hs : HasDims [[[(0 : ℝ), 0], [0, 0], [0, 0], [0, 0]]] 1 4 2 := by decide
    show (get2 (attention_weights [[[(0 : ℝ), 0], [0, 0], [0, 0], [0, 0]]]) 0 0).getD 0 0 = 1
    rw [attention_weights_getD _ 1 4 2 hs 0 0 (by omega) (by omega)]
    norm_num [get2, attRow, pySliceIdx, softmax_singleton, softmax_nil]

/-- Claim C9 (amended): when a row's causal window bound is exactly zero
(`offset + i + 1 = 0`, the case that occurs for the first input row when
there are no past inputs), no error is raised: that row's attention weights
are all exactly 0 (summing to 0, not 1) and the corresponding attention
output row is the zero vector.  (The original claim's `≤ 0` is wrong: a
strictly negative bound wraps around under Python slice semantics.) -/
theorem C9_empty_window (targets s : Ten3) (B Ti Tt D : Nat)
    (hs : HasDims s B Ti Tt) (ht : HasDims targets B Tt D)
    (b i : Nat) (hb : b < B) (hi : i < Ti)
    (hzero : (Tt : Int) - (Ti : Int) + 1 + (i : Int) = 0) (hTt : 1 ≤ Tt) :
    (∀ j, get3 (attention_weights s) b i j = 0) ∧
    (∑ j ∈ Finset.range Tt, get3 (attention_weights s) b i j = 0) ∧
    (∀ d, d < D → get3 (similarity_weighted_attention targets s) b i d = 0) := by
  have hall : ∀ j, get3 (attention_weights s) b i j = 0 := by
    intro j
    show (get2 (attention_weights s) b i).getD j 0 = 0
    rw [attention_weights_getD s B Ti Tt hs b i hb hi, hzero]
    apply attRow_getD_of_ge
    simp [pySliceIdx]
  refine ⟨hall, ?_, ?_⟩
  · simp [hall]
  · intro d hd
    rw [swa_getD targets s B Ti Tt D hs ht b i d hb hi hd hTt]
    simp [hall]

/-- Witness for the amended C9 at `B = 1`, `Ti = 2`, `Tt = 1`, `D = 1`
(the `Tp = 0` shape produced by `self_similarity_attention`), row `i = 0`. -/
theorem C9_empty_window_witness :
    HasDims [[[(3 : ℝ)], [(4 : ℝ)]]] 1 2 1 ∧ HasDims [[[(5 : ℝ)]]] 1 1 1 ∧
    ((1 : Int) - (2 : Int) + 1 + (0 : Int) = 0) ∧
    ((∀ j, get3 (attention_weights [[[(3 : ℝ)], [(4 : ℝ)]]]) 0 0 j = 0) ∧
    (∑ j ∈ Finset.range 1, get3 (attention_weights [[[(3 : ℝ)], [(4 : ℝ)]]]) 0 0 j = 0) ∧
    (∀ d, d < 1 →
      get3 (similarity_weighted_attention [[[(5 : ℝ)]]] [[[(3 : ℝ)], [(4 : ℝ)]]]) 0 0 d = 0)) :=
  ⟨by decide, by decide, by decide,
    C9_empty_window [[[(5 : ℝ)]]] [[[(3 : ℝ)], [(4 : ℝ)]]] 1 2 1 1
      (by decide) (by decide) 0 0 (by omega) (by omega) (by decide) (by omega)⟩

/-- Counterexample to C3 as stated: with `Ti = 2 > Tt = 1` no
precondition-violation is raised — `similarity_weighted_attention` silently
returns a well-defined result (row 0 gets an empty window and a zero output
row, row 1 attends fully to the single target). -/
theorem C3_counterexample :
    get3 (similarity_weighted_attention [[[(5 : ℝ)]]] [[[(1 : ℝ)], [(2 : ℝ)]]]) 0 0 0 = 0 ∧
    get3 (similarity_weighted_attention [[[(5 : ℝ)]]] [[[(1 : ℝ)], [(2 : ℝ)]]]) 0 1 0 = 5 := by
  have hs : HasDims [[[(1 : ℝ)], [(2 : ℝ)]]] 1 2 1 := by decide
  have ht : HasDims [[[(5 : ℝ)]]] 1 1 1 := by decide
  have hA0 : get3 (attention_weights [[[(1 : ℝ)], [(2 : ℝ)]]]) 0 0 0 = 0 := by
    show (get2 (attention_weights [[[(1 : ℝ)], [(2 : ℝ)]]]) 0 0).getD 0 0 = 0
    rw [attention_weights_getD _ 1 2 1 hs 0 0 (by omega) (by omega)]
    apply attRow_getD_of_ge
    norm_num [get2, pySliceIdx]
  have hA1 : get3 (attention_weights [[[(1 : ℝ)], [(2 : ℝ)]]]) 0 1 0 = 1 := by
    show (get2 (attention_weights [[[(1 : ℝ)], [(2 : ℝ)]]]) 0 1).getD 0 0 = 1
    rw [attention_weights_getD _ 1 2 1 hs 0 1 (by omega) (by omega)]
    norm_num [get2, attRow, pySliceIdx, softmax_singleton]
  constructor
  · rw [swa_getD _ _ 1 2 1 1 hs ht 0 0 0 (by omega) (by omega) (by omega) (by omega)]
    rw [Finset.sum_range_one, hA0]
    ring
  · rw [swa_getD _ _ 1 2 1 1 hs ht 0 1 0 (by omega) (by omega) (by omega) (by omega)]
    rw [Finset.sum_range_one, hA1]
    show 1 * ([(5 : ℝ)].getD 0 0) = 5
    norm_num

/-- Claim C3 (amended): when `Ti > Tt` the attention unit raises no error;
it silently returns an attention output of the documented shape
`(B, Ti, D)`, interpreting nonpositive window bounds by Python slice
semantics. -/
theorem C3_no_error_shape (targets s : Ten3) (B Ti Tt D : Nat)
    (hs : HasDims s B Ti Tt) (ht : HasDims targets B Tt D)
    (hgt : Tt < Ti) (hTt : 1 ≤ Tt) :
    HasDims (similarity_weighted_attention targets s) B Ti D :=
  swa_dims targets s B Ti Tt D hs ht (by omega) hTt

/-- Witness for the amended C3 at `B = 1`, `Ti = 2`, `Tt = 1`, `D = 1`. -/
theorem C3_no_error_shape_witness :
    HasDims [[[(1 : ℝ)], [(2 : ℝ)]]] 1 2 1 ∧ HasDims [[[(5 : ℝ)]]] 1 1 1 ∧
    (1 : Nat) < 2 ∧ (1 : Nat) ≤ 1 ∧
    HasDims (similarity_weighted_attention [[[(5 : ℝ)]]] [[[(1 : ℝ)], [(2 : ℝ)]]]) 1 2 1 :=
  ⟨by decide, by decide, by decide, by decide,
    C3_no_error_shape [[[(5 : ℝ)]]] [[[(1 : ℝ)], [(2 : ℝ)]]] 1 2 1 1
      (by decide) (by decide) (by omega) (by omega)⟩

/-! ### Shape lemmas for the composition `self_similarity_attention` -/

lemma input_embeddings_dims (W : Mat) (bias : Vec) (t : Ten3) (B T D E : Nat)
    (ht : HasDims t B T D) (hW : W.length = E) (hb : bias.length = E) :
    HasDims (input_embeddings W bias t) B T E := by
  refine ⟨by rw [input_embeddings, List.length_map, ht.1], ?_⟩
  intro m hm
  obtain ⟨seq, hseq, rfl⟩ := List.mem_map.mp hm
  refine ⟨by rw [List.length_map, (ht.2 seq hseq).1], ?_⟩
  intro r hr
  obtain ⟨x, _, rfl⟩ := List.mem_map.mp hr
  rw [List.length_zipWith, hW, hb, Nat.min_self]

lemma concat_time_dims (past inputs : Ten3) (B T Tp D : Nat)
    (hp : HasDims past B Tp D) (hi : HasDims inputs B T D) :
    HasDims (List.zipWith (fun p x => p ++ x) past inputs) B (Tp + T) D := by
  refine ⟨by rw [List.length_zipWith, hp.1, hi.1, Nat.min_self], ?_⟩
  intro m hm
  obtain ⟨k, hk, hkm⟩ := List.mem_iff_getElem.mp hm
  have hkB : k < B := by
    rw [List.length_zipWith, hp.1, hi.1, Nat.min_self] at hk
    exact hk
  have hmk : m = past.getD k [] ++ inputs.getD k [] := by
    rw [← hkm, ← List.getD_eq_getElem _ [] hk,
      getD_zipWith_of_lt _ past inputs k (by rw [hp.1]; exact hkB)
        (by rw [hi.1]; exact hkB) [] []]
  subst hmk
  refine ⟨by rw [List.length_append, hasDims_getD_length hp hkB,
    hasDims_getD_length hi hkB], ?_⟩
  intro r hr
  have hpmem : past.getD k [] ∈ past := by
    rw [List.getD_eq_getElem past [] (by rw [hp.1]; exact hkB)]
    exact List.getElem_mem _
  have himem : inputs.getD k [] ∈ inputs := by
    rw [List.getD_eq_getElem inputs [] (by rw [hi.1]; exact hkB)]
    exact List.getElem_mem _
  rcases List.mem_append.mp hr with hr1 | hr2
  · exact (hp.2 _ hpmem).2 r hr1
  · exact (hi.2 _ himem).2 r hr2

lemma dropLast_time_dims {t : Ten3} {B T D : Nat} (h : HasDims t B T D) :
    HasDims (t.map List.dropLast) B (T - 1) D := by
  refine ⟨by rw [List.length_map, h.1], ?_⟩
  intro m hm
  obtain ⟨seq, hseq, rfl⟩ := List.mem_map.mp hm
  refine ⟨by rw [List.length_dropLast, (h.2 seq hseq).1], ?_⟩
  intro r hr
  exact (h.2 seq hseq).2 r (List.dropLast_subset seq hr)

lemma drop_time_dims {t : Ten3} {B T D : Nat} (h : HasDims t B T D) (k : Nat) :
    HasDims (t.map (List.drop k)) B (T - k) D := by
  refine ⟨by rw [List.length_map, h.1], ?_⟩
  intro m hm
  obtain ⟨seq, hseq, rfl⟩ := List.mem_map.mp hm
  refine ⟨by rw [List.length_drop, (h.2 seq hseq).1], ?_⟩
  intro r hr
  exact (h.2 seq hseq).2 r (List.drop_subset k seq hr)

lemma matmulTB_dims (a bmat : Ten3) (B M K N : Nat)
    (ha : HasDims a B M K) (hb : HasDims bmat B N K) :
    HasDims (List.zipWith (fun e te => matmulTB e te) a bmat) B M N := by
  refine ⟨by rw [List.length_zipWith, ha.1, hb.1, Nat.min_self], ?_⟩
  intro m hm
  obtain ⟨k, hk, hkm⟩ := List.mem_iff_getElem.mp hm
  have hkB : k < B := by
    rw [List.length_zipWith, ha.1, hb.1, Nat.min_self] at hk
    exact hk
  have hmk : m = matmulTB (a.getD k []) (bmat.getD k []) := by
    rw [← hkm, ← List.getD_eq_getElem _ [] hk,
      getD_zipWith_of_lt _ a bmat k (by rw [ha.1]; exact hkB)
        (by rw [hb.1]; exact hkB) [] []]
  subst hmk
  refine ⟨by rw [matmulTB, List.length_map, hasDims_getD_length ha hkB], ?_⟩
  intro r hr
  rw [matmulTB] at hr
  obtain ⟨row, _, rfl⟩ := List.mem_map.mp hr
  rw [List.length_map, hasDims_getD_length hb hkB]

/-- The `self_similarity` matrix of `self_similarity_attention` has shape
`(B, T, Tp + T - 1)`. -/
lemma ssa_snd_dims (W1 : Mat) (bias1 : Vec) (W2 : Mat) (bias2 : Vec)
    (inputs past_inputs : Ten3) (bs isz esz B T Tp D E : Nat)
    (hin : HasDims inputs B T D) (hp : HasDims past_inputs B Tp D)
    (hW1 : W1.length = E) (hb1 : bias1.length = E)
    (hW2 : W2.length = E) (hb2 : bias2.length = E) :
    HasDims (self_similarity_attention W1 bias1 W2 bias2 inputs past_inputs
      bs isz esz).2 B T (Tp + T - 1) := by
  show HasDims (List.zipWith (fun e te => matmulTB e te)
    (input_embeddings W1 bias1 inputs)
    (input_embeddings W2 bias2
      ((List.zipWith (fun p x => p ++ x) past_inputs inputs).map List.dropLast)))
    B T (Tp + T - 1)
  apply matmulTB_dims _ _ B T E (Tp + T - 1)
  · exact input_embeddings_dims W1 bias1 inputs B T D E hin hW1 hb1
  · exact input_embeddings_dims W2 bias2 _ B (Tp + T - 1) D E
      (dropLast_time_dims (concat_time_dims past_inputs inputs B T Tp D hp hin))
      hW2 hb2

/-- Claim C4: `self_similarity_attention` concatenates past and current
inputs along time, embeds the current inputs and the concatenation with its
last time step dropped, takes the batched matrix product of current
embeddings with transposed target embeddings — a `(B, T, Tp+T-1)` similarity
matrix — and calls the attention unit on the concatenation with its first
time step dropped, returning the pair `(attention_outputs, self_similarity)`. -/
theorem C4_self_similarity_attention (W1 : Mat) (bias1 : Vec) (W2 : Mat) (bias2 : Vec)
    (inputs past_inputs : Ten3) (bs isz esz B T Tp D E : Nat)
    (hin : HasDims inputs B T D) (hp : HasDims past_inputs B Tp D)
    (hW1 : W1.length = E) (hb1 : bias1.length = E)
    (hW2 : W2.length = E) (hb2 : bias2.length = E) :
    (self_similarity_attention W1 bias1 W2 bias2 inputs past_inputs bs isz esz).2 =
      List.zipWith (fun e te => matmulTB e te)
        (input_embeddings W1 bias1 inputs)
        (input_embeddings W2 bias2
          ((List.zipWith (fun p x => p ++ x) past_inputs inputs).map List.dropLast)) ∧
    (self_similarity_attention W1 bias1 W2 bias2 inputs past_inputs bs isz esz).1 =
      similarity_weighted_attention
        ((List.zipWith (fun p x => p ++ x) past_inputs inputs).map (List.drop 1))
        (self_similarity_attention W1 bias1 W2 bias2 inputs past_inputs bs isz esz).2 ∧
    HasDims (self_similarity_attention W1 bias1 W2 bias2 inputs past_inputs
      bs isz esz).2 B T (Tp + T - 1) :=
  ⟨rfl, rfl, ssa_snd_dims W1 bias1 W2 bias2 inputs past_inputs bs isz esz
    B T Tp D E hin hp hW1 hb1 hW2 hb2⟩

/-- Witness for C4 at `B = T = D = E = 1`, `Tp = 0`. -/
theorem C4_self_similarity_attention_witness :
    HasDims [[[(1 : ℝ)]]] 1 1 1 ∧ HasDims [([] : Mat)] 1 0 1 ∧
    ([[(1 : ℝ)]] : Mat).length = 1 ∧ ([(0 : ℝ)] : Vec).length = 1 ∧
    ((self_similarity_attention [[(1 : ℝ)]] [(0 : ℝ)] [[(1 : ℝ)]] [(0 : ℝ)]
        [[[(1 : ℝ)]]] [([] : Mat)] 1 1 1).2 =
      List.zipWith (fun e te => matmulTB e te)
        (input_embeddings [[(1 : ℝ)]] [(0 : ℝ)] [[[(1 : ℝ)]]])
        (input_embeddings [[(1 : ℝ)]] [(0 : ℝ)]
          ((List.zipWith (fun p x => p ++ x) [([] : Mat)] [[[(1 : ℝ)]]]).map
            List.dropLast)) ∧
    (self_similarity_attention [[(1 : ℝ)]] [(0 : ℝ)] [[(1 : ℝ)]] [(0 : ℝ)]
        [[[(1 : ℝ)]]] [([] : Mat)] 1 1 1).1 =
      similarity_weighted_attention
        ((List.zipWith (fun p x => p ++ x) [([] : Mat)] [[[(1 : ℝ)]]]).map
          (List.drop 1))
        (self_similarity_attention [[(1 : ℝ)]] [(0 : ℝ)] [[(1 : ℝ)]] [(0 : ℝ)]
          [[[(1 : ℝ)]]] [([] : Mat)] 1 1 1).2 ∧
    HasDims (self_similarity_attention [[(1 : ℝ)]] [(0 : ℝ)] [[(1 : ℝ)]] [(0 : ℝ)]
      [[[(1 : ℝ)]]] [([] : Mat)] 1 1 1).2 1 1 (0 + 1 - 1)) :=
  ⟨by decide, by decide, by decide, by decide,
    C4_self_similarity_attention [[(1 : ℝ)]] [(0 : ℝ)] [[(1 : ℝ)]] [(0 : ℝ)]
      [[[(1 : ℝ)]]] [([] : Mat)] 1 1 1 1 1 0 1 1
      (by decide) (by decide) (by decide) (by decide) (by decide) (by decide)⟩

lemma exSSA_snd_dims : HasDims exSSA.2 2 3 2 := by
  show HasDims (self_similarity_attention exW exBias exW exBias exInputs exPast 2 4 2).2 2 3 2
  exact ssa_snd_dims exW exBias exW exBias exInputs exPast 2 4 2 2 3 0 4 2
    (by decide) (by decide) (by decide) (by decide) (by decide) (by decide)

/-- Counterexample to C2 as stated: in the end-to-end example (batch 2,
T = 3, Tp = 0) row 0's attention distribution is `[0, 0]` — it has 0
nonzero weights, not exactly 1 — because the offset formula
`offset = (Tp+T-1) - T = -1` gives window bounds `offset + i + 1 = i`,
i.e. window sizes `[0, 1, 2]`, not `[1, 2, 2]`. -/
theorem C2_counterexample :
    get2 (attention_weights exSSA.2) 0 0 = [0, 0] := by
  have hs2 := exSSA_snd_dims
  have hrowlen : (get2 exSSA.2 0 0).length = 2 :=
    hasDims_row_length hs2 (by omega) (by omega)
  rw [attention_weights_getD exSSA.2 2 3 2 hs2 0 0 (by omega) (by omega)]
  have hw : pySliceIdx (get2 exSSA.2 0 0).length
      (((2 : Nat) : Int) - ((3 : Nat) : Int) + 1 + ((0 : Nat) : Int)) = 0 := by
    rw [hrowlen]
    norm_num [pySliceIdx]
  rw [attRow_of_window_zero _ _ hw, hrowlen]
  rfl

/-- Claim C2 (amended): in the end-to-end example (single layer, rnn
size [4], embedding size 2, batch 2, T = 3, Tp = 0) the attention output
has shape (2,3,4) and the self-similarity matrix has shape (2,3,2) as
claimed, but the per-row window sizes are [0, 1, 2] (not [1, 2, 2]): row
0's distribution is all-zero, row 1's is `[1, 0]` with exactly one nonzero
weight, and row 2's is a softmax over both columns summing to 1. -/
theorem C2_end_to_end :
    HasDims exSSA.1 2 3 4 ∧
    HasDims exSSA.2 2 3 2 ∧
    get2 (attention_weights exSSA.2) 0 0 = [0, 0] ∧
    get2 (attention_weights exSSA.2) 0 1 = [1, 0] ∧
    (get2 (attention_weights exSSA.2) 0 2).sum = 1 := by
  have hs2 := exSSA_snd_dims
  have htgt : HasDims
      ((List.zipWith (fun p x => p ++ x) exPast exInputs).map (List.drop 1)) 2 2 4 := by
    decide
  refine ⟨?_, hs2, ?_, ?_, ?_⟩
  · show HasDims (similarity_weighted_attention
      ((List.zipWith (fun p x => p ++ x) exPast exInputs).map (List.drop 1)) exSSA.2) 2 3 4
    exact swa_dims _ exSSA.2 2 3 2 4 hs2 htgt (by omega) (by omega)
  · have hrowlen : (get2 exSSA.2 0 0).length = 2 :=
      hasDims_row_length hs2 (by omega) (by omega)
    rw [attention_weights_getD exSSA.2 2 3 2 hs2 0 0 (by omega) (by omega)]
    have hw : pySliceIdx (get2 exSSA.2 0 0).length
        (((2 : Nat) : Int) - ((3 : Nat) : Int) + 1 + ((0 : Nat) : Int)) = 0 := by
      rw [hrowlen]
      norm_num [pySliceIdx]
    rw [attRow_of_window_zero _ _ hw, hrowlen]
    rfl
  · rw [attention_weights_getD exSSA.2 2 3 2 hs2 0 1 (by omega) (by omega)]
    obtain ⟨a, b, hab⟩ := List.length_eq_two.mp
      (hasDims_row_length hs2 (show 0 < 2 by omega) (show 1 < 3 by omega))
    rw [show get2 exSSA.2 0 1 = [a, b] from hab]
    norm_num [attRow, pySliceIdx, softmax_singleton]
  · rw [attention_weights_getD exSSA.2 2 3 2 hs2 0 2 (by omega) (by omega)]
    obtain ⟨a, b, hab⟩ := List.length_eq_two.mp
      (hasDims_row_length hs2 (show 0 < 2 by omega) (show 2 < 3 by omega))
    rw [show get2 exSSA.2 0 2 = [a, b] from hab]
    norm_num [attRow, pySliceIdx]
    exact softmax_sum [a, b] (by simp)

/-! ### The generate-mode softmax -/

lemma zipWith_div_replicate (row : Vec) (C : Nat) (t : ℝ) (h : row.length = C) :
    List.zipWith (fun l tt => l / tt) row (List.replicate C t) =
      row.map (fun l => l / t) := by
  induction row generalizing C with
  | nil => simp
  | cons a rest ih =>
    cases C with
    | zero => simp at h
    | succ n =>
      simp only [List.replicate_succ, List.zipWith_cons_cons, List.map_cons]
      rw [ih n (by simpa using h)]

/-- Claim C6: the generate-mode output distribution is
`softmax(logits / temperature)` applied per flattened step row and reshaped
to `(batch, steps, classes)`; at `temperature = 1` it equals the plain
reference softmax of the same logits. -/
theorem C6_generate_softmax (bs C : Nat) (flat : Mat) (temperature : ℝ)
    (hrows : ∀ row ∈ flat, row.length = C) :
    generate_softmax bs C temperature flat =
      reshape_batch bs
        (flat.map (fun row => softmax (row.map (fun l => l / temperature)))) ∧
    (temperature = 1 →
      generate_softmax bs C temperature flat =
        reshape_batch bs (flat.map reference_softmax)) := by
  have h1 : generate_softmax_flat flat C temperature =
      flat.map (fun row => softmax (row.map (fun l => l / temperature))) := by
    rw [generate_softmax_flat]
    apply List.map_congr_left
    intro row hrow
    rw [zipWith_div_replicate row C temperature (hrows row hrow)]
  constructor
  · rw [generate_softmax, h1]
  · intro ht
    subst ht
    rw [generate_softmax, h1]
    congr 1
    apply List.map_congr_left
    intro row _
    have hid : row.map (fun l => l / (1 : ℝ)) = row := by
      simp
    rw [hid]
    rfl

/-- Witness for C6 at batch 1, two classes, logits row `[0, 0]`,
temperature 1. -/
theorem C6_generate_softmax_witness :
    (∀ row ∈ [[(0 : ℝ), 0]], row.length = 2) ∧
    generate_softmax 1 2 1 [[(0 : ℝ), 0]] =
      reshape_batch 1 ([[(0 : ℝ), 0]].map reference_softmax) :=
  ⟨by decide, (C6_generate_softmax 1 2 [[(0 : ℝ), 0]] 1 (by decide)).2 rfl⟩

/-- Claim C5: for every mode outside {train, eval, generate}, `build_graph`
fails at its first statement with an invalid-argument error whose message
names the offending mode value and returns no graph; for the three valid
modes no such error is raised. -/
theorem C5_mode_check (mode : String) :
    (mode ∉ (["train", "eval", "generate"] : List String) →
      build_graph_mode_guard mode =
        Except.error
          ("The mode parameter must be 'train', 'eval', or 'generate'. The mode parameter was: " ++ mode)) ∧
    (mode ∈ (["train", "eval", "generate"] : List String) →
      build_graph_mode_guard mode = Except.ok ()) := by
  constructor <;> intro h <;> simp [build_graph_mode_guard, h]

/-- Witness for C5 at the invalid mode `"foo"` and the valid mode `"train"`. -/
theorem C5_mode_check_witness :
    ("foo" ∉ (["train", "eval", "generate"] : List String) ∧
      build_graph_mode_guard "foo" =
        Except.error
          ("The mode parameter must be 'train', 'eval', or 'generate'. The mode parameter was: " ++ "foo")) ∧
    ("train" ∈ (["train", "eval", "generate"] : List String) ∧
      build_graph_mode_guard "train" = Except.ok ()) :=
  ⟨⟨by decide, (C5_mode_check "foo").1 (by decide)⟩,
   ⟨by decide, (C5_mode_check "train").2 (by decide)⟩⟩

/-- Claim C7: in train mode, loss is the mean of the per-position
cross-entropy, perplexity is `exp(loss)`, per-step loss is the sum of the
cross-entropy divided by the external step count (and coincides with the
mean loss exactly when that count equals the raw element count), and
per-step perplexity is `exp(loss_per_step)`. -/
theorem C7_train_metrics (xent : List ℝ) (num_steps : ℝ) :
    train_loss xent = xent.sum / xent.length ∧
    train_perplexity xent = Real.exp (train_loss xent) ∧
    train_loss_per_step xent num_steps = xent.sum / num_steps ∧
    train_perplexity_per_step xent num_steps = Real.exp (train_loss_per_step xent num_steps) ∧
    train_loss_per_step xent (xent.length : ℝ) = train_loss xent :=
  ⟨rfl, rfl, rfl, rfl, rfl⟩

/-- Claim C10: the `batch_size` parameter of `self_similarity_attention` has
no effect on its result, since the source body never uses it. -/
theorem C10_batch_size_unused (W1 : Mat) (bias1 : Vec) (W2 : Mat) (bias2 : Vec)
    (inputs past_inputs : Ten3) (bs1 bs2 input_size embedding_size : Nat) :
    self_similarity_attention W1 bias1 W2 bias2 inputs past_inputs bs1
        input_size embedding_size =
      self_similarity_attention W1 bias1 W2 bias2 inputs past_inputs bs2
        input_size embedding_size :=
  rfl

/-- Claim C8: each layer of the stack feeds the next layer the feature-axis
concatenation of its raw recurrent outputs with its attention outputs, and
tracks the raw recurrent outputs (not the concatenation) as its `targets`
contribution to history. -/
theorem C8_layer_wiring (bs : Nat) (p : LayerParams) (ps : List LayerParams) (x : Ten3) :
    (run_layer bs p x).targets = p.rnn x ∧
    (run_layer bs p x).output =
      concatFeat (p.rnn x)
        (self_similarity_attention p.W1 p.bias1 p.W2 p.bias2 (p.rnn x) p.past
          bs p.input_size p.embedding_size).1 ∧
    run_stack bs (p :: ps) x =
      run_layer bs p x ::
        run_stack bs ps
          (concatFeat (p.rnn x)
            (self_similarity_attention p.W1 p.bias1 p.W2 p.bias2 (p.rnn x) p.past
              bs p.input_size p.embedding_size).1) :=
  ⟨rfl, rfl, rfl⟩

end SelfSimilarityRnn
